import Mathlib

/-!
Shallow embedding of `mirror/scheduler.py` (the `Scheduler` class) in Lean 4.

The scheduler owns an ordered task set (`tasks`, a Python `OrderedDict`) and a
queue (`queue`, a Python `dict` mapping mirror name to next eligible unix time).
Both are modelled as association lists with `String` keys; Python dicts have
unique keys, which appears below as `Nodup` hypotheses on the key lists where a
proof needs it.  Machine time (`time.time()`), the sampled load average
(`loadavg()`) and connection count (`tcpconn()`) are inputs of the environment
and are passed as explicit parameters (`now : Int`, `load : Rat`, `conn : Int`).
Logging is I/O and is not modelled.

The `Task` class itself lives outside the embedded file; the scheduler only
reads `task.priority`, `task.enabled`, `task.running`, calls
`task.get_schedule_time(now)` and `task.run()` / `task.set_stop_flag()`.  Those
fields are modelled as record fields (`get_schedule_time` as a function field),
and the effects of `run` / `set_stop_flag` on the `running` flag are modelled
from the spec (see `run_task` and `mark_exited`).
-/

namespace Mirror

/-- The fields of the external `Task` object that `scheduler.py` reads:
`priority`, `enabled`, `running`, and the opaque per-task schedule rule
`get_schedule_time : reference instant → next eligible unix time`. -/
structure Task where
  priority : Int
  enabled : Bool
  running : Bool
  get_schedule_time : Int → Int

/-- The settings that `init_general` produces on the scheduler
(`self.emails`, `self.loadlimit`, `self.httpconn`, `self.logdir`,
`self.maxtasks`). -/
structure GeneralConf where
  emails : List String
  loadlimit : Rat
  httpconn : Int
  logdir : String
  maxtasks : Int
deriving Repr, DecidableEq

/-- The `general` section of the configuration, at the typed level: the string
parsing done by the external config layer and by `float()` / `int()` /
the email regex is represented by already-typed fields, with `emails` the
list of `local@domain` tokens extracted from the free-text field. -/
structure GeneralSection where
  emails : List String
  loadlimit : Rat
  httpconn : Int
  maxtasks : Int
  logdir : String

/-- `Scheduler.CHECK_TIMEOUT = 0x01`. -/
def CHECK_TIMEOUT : Nat := 1

/-- `Scheduler.SCHEDULE_TASK = 0x02`. -/
def SCHEDULE_TASK : Nat := 2

/-- The scheduler state mutated by the loop: `self.tasks`, `self.queue`,
`self.todo`, and the general settings installed by `init_general`. -/
structure SchedState where
  general : GeneralConf
  tasks : List (String × Task)
  queue : List (String × Int)
  todo : Nat

/-- `init_general`: set the hardcoded defaults, then return early (keeping
them) when the config has no `general` section; otherwise take the section's
values, appending the path separator to `logdir` when missing.
(`os.path.sep` is `"/"`; on an empty `logdir` the source raises `IndexError`
where this model appends the separator — no claim touches that corner.) -/
def init_general (general : Option GeneralSection) : GeneralConf :=
  let defaults : GeneralConf :=
    { emails := [], loadlimit := 4, httpconn := 1200,
      logdir := "/var/log/rsync", maxtasks := 10 }
  match general with
  | none => defaults
  | some g =>
      { emails := g.emails,
        loadlimit := g.loadlimit,
        httpconn := g.httpconn,
        maxtasks := g.maxtasks,
        logdir := if g.logdir.endsWith "/" then g.logdir else g.logdir ++ "/" }

/-- Update the value stored under key `mirror` in an association list,
leaving every other entry unchanged (Python dict item assignment to an
existing key). -/
def updEntry {α : Type} (f : α → α) (mirror : String) (l : List (String × α)) :
    List (String × α) :=
  l.map (fun p => if p.1 = mirror then (p.1, f p.2) else p)

/-- `delay_task(mirror, delay_seconds)`: a no-op when `mirror not in
self.queue`, else `self.queue[mirror] += delay_seconds`.  The source's default
argument is `delay_seconds=1800`; every call site in the source uses the
default, and the embedded calls pass `1800` explicitly. -/
def delay_task (st : SchedState) (mirror : String) (delay_seconds : Int) :
    SchedState :=
  if (List.lookup mirror st.queue).isSome then
    { st with queue := updEntry (fun t => t + delay_seconds) mirror st.queue }
  else st

/-- `count_running_tasks`: `len(self.tasks) - len(self.queue)`. -/
def count_running_tasks (st : SchedState) : Int :=
  (st.tasks.length : Int) - (st.queue.length : Int)

/-- `run_task(mirror)`: no-op when the mirror is unknown or its task is
already running; otherwise call `task.run()` and delete the mirror from
`self.queue` when present.  `Task.run` is external; modelled from the spec:
a successful start sets `running = true`. -/
def run_task (st : SchedState) (mirror : String) : SchedState :=
  match List.lookup mirror st.tasks with
  | none => st
  | some task =>
      if task.running then st
      else
        { st with
          tasks := updEntry (fun tk => { tk with running := true }) mirror st.tasks,
          queue := st.queue.filter (fun p => p.1 ≠ mirror) }

/-- `schedule_task(mirror)`: the admission decision.  Load and connection
ceilings defer only tasks with `priority > 4`; the concurrency ceiling defers
unconditionally; otherwise the task is dispatched via `run_task`.
(`self.tasks[mirror]` would raise `KeyError` for an unknown mirror; that case
is unreachable from `schedule` and modelled as a no-op.) -/
def schedule_task (st : SchedState) (load : Rat) (conn : Int) (mirror : String) :
    SchedState :=
  match List.lookup mirror st.tasks with
  | none => st
  | some task =>
      if load > st.general.loadlimit ∧ task.priority > 4 then
        delay_task st mirror 1800
      else if conn > st.general.httpconn ∧ task.priority > 4 then
        delay_task st mirror 1800
      else if count_running_tasks st ≥ st.general.maxtasks then
        delay_task st mirror 1800
      else
        run_task st mirror

/-- The loop body of `append_tasks`: walk `self.tasks` in order, skipping
mirrors already queued, running tasks and disabled tasks, and insert
`queue[mirror] = task.get_schedule_time(now)` for the rest. -/
def append_tasks_aux (now : Int) :
    List (String × Int) → List (String × Task) → List (String × Int)
  | queue, [] => queue
  | queue, (mirror, task) :: rest =>
      if (List.lookup mirror queue).isSome then
        append_tasks_aux now queue rest
      else if task.running then
        append_tasks_aux now queue rest
      else if ¬ task.enabled then
        append_tasks_aux now queue rest
      else
        append_tasks_aux now (queue ++ [(mirror, task.get_schedule_time now)]) rest

/-- `append_tasks()`, with `now = time.time()` passed explicitly. -/
def append_tasks (st : SchedState) (now : Int) : SchedState :=
  { st with queue := append_tasks_aux now st.queue st.tasks }

/-- The comparison used by `sorted(self.queue, key = self.queue.get)`:
compare queue entries by queued time. -/
def timeLE (a b : String × Int) : Prop := a.2 ≤ b.2

instance : DecidableRel timeLE :=
  fun a b => inferInstanceAs (Decidable (a.2 ≤ b.2))

instance : IsTotal (String × Int) timeLE :=
  ⟨fun a b => Int.le_total a.2 b.2⟩

instance : IsTrans (String × Int) timeLE :=
  ⟨fun _ _ _ h1 h2 => le_trans h1 h2⟩

/-- `sorted(self.queue, key = self.queue.get)`: the queue entries in ascending
order of queued time.  Python's sort is stable; ties are broken by dict order,
which the spec leaves arbitrary-but-deterministic, so a (structural,
computable) insertion sort on the queued time is a faithful model. -/
def sortQueue (queue : List (String × Int)) : List (String × Int) :=
  queue.insertionSort timeLE

/-- `self.mirrors` as computed in `sleep()`: queue keys sorted by queued time. -/
def mirrorsOf (queue : List (String × Int)) : List String :=
  (sortQueue queue).map Prod.fst

/-- The sleep duration computed by `sleep()`: after `append_tasks()`, if the
queue is non-empty it is `self.queue[first mirror] - time.time()` with no
lower bound, else the fixed re-poll interval `5`.  `now1` is the clock at the
`append_tasks` call, `now2` the (slightly later) clock read in the
subtraction. -/
def sleep_duration (st : SchedState) (now1 now2 : Int) : Int :=
  let st1 := append_tasks st now1
  match sortQueue st1.queue with
  | [] => 5
  | (mirror, _) :: _ => (List.lookup mirror st1.queue).getD 0 - now2

/-- The `for mirror in self.mirrors` loop of `schedule()`: `timestamp` is the
minute-aligned window start and `timestamp + 60` the window end `end`.  A
queued time `≥ end` returns from `schedule` at once; a queued time inside
`[timestamp, end)` dispatches via `schedule_task`; anything else (an overdue
queued time `< timestamp`) is passed over.  (`self.queue[mirror]` lookups
always succeed when called from `schedule`; a failed lookup is modelled as a
skip.) -/
def schedulePass (load : Rat) (conn : Int) (timestamp : Int) :
    SchedState → List String → SchedState
  | st, [] => st
  | st, mirror :: rest =>
      match List.lookup mirror st.queue with
      | none => schedulePass load conn timestamp st rest
      | some t =>
          if t ≥ timestamp + 60 then st
          else if timestamp ≤ t ∧ t < timestamp + 60 then
            schedulePass load conn timestamp (schedule_task st load conn mirror) rest
          else
            schedulePass load conn timestamp st rest

/-- `schedule()`: guarded by `self.todo & SCHEDULE_TASK`, returns when
`self.mirrors` is empty, else runs the dispatch loop over the minute window
`[now - now % 60, now - now % 60 + 60)`.  `mirrors` is `self.mirrors`, the
sorted key list computed by the preceding `sleep()`; `load` and `conn` are the
metrics sampled by `init_sysinfo()`. -/
def schedule (st : SchedState) (now : Int) (load : Rat) (conn : Int)
    (mirrors : List String) : SchedState :=
  if st.todo &&& SCHEDULE_TASK ≠ 0 then
    if mirrors.length > 0 then
      schedulePass load conn (now - now % 60) st mirrors
    else st
  else st

/-- Modelled from the spec: `stop_task_with_pid` locates the task owning the
exited process and calls `task.set_stop_flag()`, the exit-notification path
and the only transition of `running` back to `false`; the located task is
identified here by its mirror name. -/
def mark_exited (st : SchedState) (mirror : String) : SchedState :=
  { st with
    tasks := updEntry (fun tk => { tk with running := false }) mirror st.tasks }

/-- One wake cycle of the main loop `start()`: `sleep()` repopulates the queue
(`append_tasks`, clock `now1`) and records `self.mirrors`; after the blocking
sleep, `schedule()` runs at clock `now2` with the freshly sampled metrics. -/
def wake_cycle (st : SchedState) (now1 now2 : Int) (load : Rat) (conn : Int) :
    SchedState :=
  let st1 := append_tasks st now1
  schedule st1 now2 load conn (mirrorsOf st1.queue)

/-- The state right after `Scheduler.__init__`: general settings from
`init_general`, the task set built by `init_tasks` from the per-mirror config
sections, an empty queue, and `todo = SCHEDULE_TASK`. -/
def initState (general : Option GeneralSection) (tasks : List (String × Task)) :
    SchedState :=
  { general := init_general general, tasks := tasks, queue := [],
    todo := SCHEDULE_TASK }

/-- The externally driven transitions of the scheduler: a wake cycle of the
main loop, or an asynchronous exit notification. -/
inductive Step : SchedState → SchedState → Prop
  | cycle (st : SchedState) (now1 now2 : Int) (load : Rat) (conn : Int) :
      Step st (wake_cycle st now1 now2 load conn)
  | exitNotify (st : SchedState) (mirror : String) :
      Step st (mark_exited st mirror)

/-- Reachability under `Step`. -/
def Reachable : SchedState → SchedState → Prop :=
  Relation.ReflTransGen Step

/-- The task-set keys are pairwise distinct (Python dict keys). -/
def tasksNodup (st : SchedState) : Prop :=
  (st.tasks.map Prod.fst).Nodup

/-- Soundness half of the queue-membership invariant: every queue entry
belongs to an enabled, not-running task. -/
def QueueSound (st : SchedState) : Prop :=
  ∀ m t, (m, t) ∈ st.queue →
    ∃ task, List.lookup m st.tasks = some task ∧
      task.enabled = true ∧ task.running = false

/-- Completeness half of the queue-membership invariant: every enabled,
not-running task has a queue entry. -/
def QueueComplete (st : SchedState) : Prop :=
  ∀ m task, List.lookup m st.tasks = some task →
    task.enabled = true → task.running = false →
      ∃ t, (m, t) ∈ st.queue

/-- The number of tasks whose `running` flag is true. -/
def numRunning (st : SchedState) : Int :=
  ((st.tasks.filter (fun p => p.2.running)).length : Int)

/-! ### Association-list lemmas -/

theorem mem_of_lookup_eq_some {α : Type} :
    ∀ {l : List (String × α)} {k : String} {v : α},
      List.lookup k l = some v → (k, v) ∈ l := by
  intro l
  induction l with
  | nil => intro k v h; simp [List.lookup] at h
  | cons p rest ih =>
      intro k v h
      by_cases hk : k = p.1
      · subst hk
        simp [List.lookup] at h
        simp [← h]
      · have hne : (k == p.1) = false := beq_false_of_ne hk
        rw [List.lookup, hne] at h
        exact List.mem_cons_of_mem _ (ih h)

theorem lookup_eq_some_of_mem {α : Type} :
    ∀ {l : List (String × α)} {k : String} {v : α},
      (l.map Prod.fst).Nodup → (k, v) ∈ l → List.lookup k l = some v := by
  intro l
  induction l with
  | nil => intro k v _ h; simp at h
  | cons p rest ih =>
      intro k v hnd hmem
      rcases List.mem_cons.mp hmem with heq | hmem'
      · rw [← heq]
        simp [List.lookup]
      · have hk : k ≠ p.1 := by
          intro hkp
          have : p.1 ∈ rest.map Prod.fst :=
            List.mem_map.mpr ⟨(k, v), hmem', by simp [hkp]⟩
          exact (List.nodup_cons.mp hnd).1 this
        have hne : (k == p.1) = false := beq_false_of_ne hk
        rw [List.lookup, hne]
        exact ih (List.nodup_cons.mp hnd).2 hmem'

theorem lookup_isSome_iff {α : Type} {l : List (String × α)} {k : String} :
    (List.lookup k l).isSome = true ↔ k ∈ l.map Prod.fst := by
  constructor
  · intro h
    rcases Option.isSome_iff_exists.mp h with ⟨v, hv⟩
    exact List.mem_map.mpr ⟨(k, v), mem_of_lookup_eq_some hv, rfl⟩
  · induction l with
    | nil => intro h; simp at h
    | cons q rest ih =>
        intro h
        by_cases hk : k = q.1
        · subst hk; simp [List.lookup]
        · have hne : (k == q.1) = false := beq_false_of_ne hk
          rw [List.lookup, hne]
          apply ih
          rcases List.mem_map.mp h with ⟨p, hp, hfst⟩
          rcases List.mem_cons.mp hp with heq | hmem
          · exact absurd (hfst.symm.trans (congrArg Prod.fst heq)) hk
          · exact List.mem_map.mpr ⟨p, hmem, hfst⟩

theorem lookup_eq_none_iff {α : Type} {l : List (String × α)} {k : String} :
    List.lookup k l = none ↔ k ∉ l.map Prod.fst := by
  rw [← lookup_isSome_iff]
  cases List.lookup k l <;> simp

theorem keys_updEntry {α : Type} (f : α → α) (m : String)
    (l : List (String × α)) :
    (updEntry f m l).map Prod.fst = l.map Prod.fst := by
  induction l with
  | nil => rfl
  | cons p rest ih =>
      by_cases hp : p.1 = m <;> simp [updEntry, hp] at ih ⊢ <;> exact ih

theorem updEntry_cons {α : Type} (f : α → α) (m k' : String) (v' : α)
    (rest : List (String × α)) :
    updEntry f m ((k', v') :: rest) =
      (if k' = m then (k', f v') else (k', v')) :: updEntry f m rest := rfl

theorem lookup_updEntry {α : Type} (f : α → α) (m k : String)
    (l : List (String × α)) :
    List.lookup k (updEntry f m l) =
      if k = m then (List.lookup k l).map f else List.lookup k l := by
  induction l with
  | nil => by_cases hk : k = m <;> simp [updEntry, List.lookup, hk]
  | cons p rest ih =>
      obtain ⟨k', v'⟩ := p
      rw [updEntry_cons]
      by_cases hp : k' = m
      · subst hp
        rw [if_pos rfl]
        by_cases hk : k = k'
        · subst hk
          simp [List.lookup]
        · have hne : (k == k') = false := beq_false_of_ne hk
          rw [List.lookup, hne, List.lookup, hne, ih]
      · rw [if_neg hp]
        by_cases hk : k = k'
        · subst hk
          rw [if_neg hp]
          simp [List.lookup]
        · have hne : (k == k') = false := beq_false_of_ne hk
          rw [List.lookup, hne, List.lookup, hne, ih]

theorem mem_updEntry {α : Type} {f : α → α} {m : String}
    {l : List (String × α)} {p : String × α} (h : p ∈ updEntry f m l) :
    ∃ q ∈ l, p = if q.1 = m then (q.1, f q.2) else q := by
  rcases List.mem_map.mp h with ⟨q, hq, hpq⟩
  exact ⟨q, hq, hpq.symm⟩

theorem lookup_append_none_left {α : Type} {l1 l2 : List (String × α)}
    {k : String} (h : List.lookup k (l1 ++ l2) = none) :
    List.lookup k l1 = none := by
  rw [lookup_eq_none_iff] at h ⊢
  intro hk
  exact h (by rw [List.map_append]; exact List.mem_append_left _ hk)

/-! ### Lemmas about `append_tasks` -/

theorem append_tasks_aux_mono {now : Int} :
    ∀ (tasks : List (String × Task)) {queue : List (String × Int)}
      {m : String} {t : Int},
      (m, t) ∈ queue → (m, t) ∈ append_tasks_aux now queue tasks := by
  intro tasks
  induction tasks with
  | nil => intro queue m t h; exact h
  | cons p rest ih =>
      intro queue m t h
      obtain ⟨mirror, task⟩ := p
      simp only [append_tasks_aux]
      by_cases h1 : (List.lookup mirror queue).isSome
      · rw [if_pos h1]; exact ih h
      · rw [if_neg h1]
        by_cases h2 : task.running
        · rw [if_pos h2]; exact ih h
        · rw [if_neg h2]
          by_cases h3 : ¬ task.enabled
          · rw [if_pos h3]; exact ih h
          · rw [if_neg h3]
            exact ih (List.mem_append_left _ h)

theorem mem_append_tasks_aux {now : Int} :
    ∀ {tasks : List (String × Task)} {queue : List (String × Int)}
      {m : String} {t : Int},
      (m, t) ∈ append_tasks_aux now queue tasks →
      (m, t) ∈ queue ∨
        (List.lookup m queue = none ∧ ∃ task, (m, task) ∈ tasks ∧
          task.enabled = true ∧ task.running = false ∧
          t = task.get_schedule_time now) := by
  intro tasks
  induction tasks with
  | nil => intro queue m t h; exact Or.inl h
  | cons p rest ih =>
      intro queue m t h
      obtain ⟨mirror, task⟩ := p
      simp only [append_tasks_aux] at h
      by_cases h1 : (List.lookup mirror queue).isSome
      · rw [if_pos h1] at h
        rcases ih h with hq | ⟨hnone, task', hmem, he, hr, ht⟩
        · exact Or.inl hq
        · exact Or.inr ⟨hnone, task', List.mem_cons_of_mem _ hmem, he, hr, ht⟩
      · rw [if_neg h1] at h
        by_cases h2 : task.running
        · rw [if_pos h2] at h
          rcases ih h with hq | ⟨hnone, task', hmem, he, hr, ht⟩
          · exact Or.inl hq
          · exact Or.inr ⟨hnone, task', List.mem_cons_of_mem _ hmem, he, hr, ht⟩
        · rw [if_neg h2] at h
          by_cases h3 : ¬ task.enabled
          · rw [if_pos h3] at h
            rcases ih h with hq | ⟨hnone, task', hmem, he, hr, ht⟩
            · exact Or.inl hq
            · exact Or.inr ⟨hnone, task', List.mem_cons_of_mem _ hmem, he, hr, ht⟩
          · rw [if_neg h3] at h
            have hqnone : List.lookup mirror queue = none :=
              Option.not_isSome_iff_eq_none.mp h1
            have henb : task.enabled = true := by
              by_contra hc
              exact h3 (by simp [hc])
            have hrun : task.running = false := by
              by_contra hc
              exact h2 (by simpa using hc)
            rcases ih h with hq | ⟨hnone, task', hmem, he, hr, ht⟩
            · rcases List.mem_append.mp hq with hq' | hnew
              · exact Or.inl hq'
              · have : (m, t) = (mirror, task.get_schedule_time now) := by
                  simpa using hnew
                rcases Prod.mk.injEq .. ▸ this with ⟨hm, ht⟩
                subst hm
                exact Or.inr ⟨hqnone, task, List.mem_cons_self _ _,
                  henb, hrun, by simpa using ht⟩
            · exact Or.inr ⟨lookup_append_none_left hnone, task',
                List.mem_cons_of_mem _ hmem, he, hr, ht⟩

theorem append_tasks_aux_complete {now : Int} :
    ∀ {tasks : List (String × Task)} {queue : List (String × Int)}
      {m : String} {task : Task},
      List.lookup m tasks = some task →
      task.enabled = true → task.running = false →
      ∃ t, (m, t) ∈ append_tasks_aux now queue tasks := by
  intro tasks
  induction tasks with
  | nil => intro queue m task h _ _; simp [List.lookup] at h
  | cons p rest ih =>
      intro queue m task hlk henb hrun
      obtain ⟨mirror, tk⟩ := p
      simp only [append_tasks_aux]
      by_cases hm : m = mirror
      · subst hm
        have htk : tk = task := by
          simp [List.lookup] at hlk; exact hlk
        subst htk
        by_cases h1 : (List.lookup m queue).isSome
        · rw [if_pos h1]
          rcases Option.isSome_iff_exists.mp h1 with ⟨t, ht⟩
          exact ⟨t, append_tasks_aux_mono rest (mem_of_lookup_eq_some ht)⟩
        · rw [if_neg h1, if_neg (by simp [hrun]), if_neg (by simp [henb])]
          exact ⟨tk.get_schedule_time now,
            append_tasks_aux_mono rest
              (List.mem_append_right _ (List.mem_singleton.mpr rfl))⟩
      · have hne : (m == mirror) = false := beq_false_of_ne hm
        rw [List.lookup, hne] at hlk
        by_cases h1 : (List.lookup mirror queue).isSome
        · rw [if_pos h1]; exact ih hlk henb hrun
        · rw [if_neg h1]
          by_cases h2 : tk.running
          · rw [if_pos h2]; exact ih hlk henb hrun
          · rw [if_neg h2]
            by_cases h3 : ¬ tk.enabled
            · rw [if_pos h3]; exact ih hlk henb hrun
            · rw [if_neg h3]; exact ih hlk henb hrun

/-! ### The task-set keys are never changed by any operation -/

theorem delay_task_tasks (st : SchedState) (m : String) (d : Int) :
    (delay_task st m d).tasks = st.tasks := by
  unfold delay_task; split <;> rfl

theorem run_task_keys (st : SchedState) (m : String) :
    (run_task st m).tasks.map Prod.fst = st.tasks.map Prod.fst := by
  unfold run_task
  cases hlk : List.lookup m st.tasks with
  | none => rfl
  | some task =>
      by_cases hr : task.running
      · simp [hr]
      · simp [hr, keys_updEntry]

theorem schedule_task_keys (st : SchedState) (load : Rat) (conn : Int)
    (m : String) :
    (schedule_task st load conn m).tasks.map Prod.fst = st.tasks.map Prod.fst := by
  unfold schedule_task
  cases hlk : List.lookup m st.tasks with
  | none => rfl
  | some task =>
      dsimp only
      split
      · rw [delay_task_tasks]
      · split
        · rw [delay_task_tasks]
        · split
          · rw [delay_task_tasks]
          · exact run_task_keys st m

theorem schedulePass_keys (load : Rat) (conn : Int) (timestamp : Int) :
    ∀ (mirrors : List String) (st : SchedState),
      (schedulePass load conn timestamp st mirrors).tasks.map Prod.fst =
        st.tasks.map Prod.fst := by
  intro mirrors
  induction mirrors with
  | nil => intro st; rfl
  | cons mirror rest ih =>
      intro st
      simp only [schedulePass]
      cases hlk : List.lookup mirror st.queue with
      | none => exact ih st
      | some t =>
          dsimp only
          split
          · rfl
          · split
            · rw [ih, schedule_task_keys]
            · exact ih st

theorem schedule_keys (st : SchedState) (now : Int) (load : Rat) (conn : Int)
    (mirrors : List String) :
    (schedule st now load conn mirrors).tasks.map Prod.fst =
      st.tasks.map Prod.fst := by
  unfold schedule
  split
  · split
    · exact schedulePass_keys load conn (now - now % 60) mirrors st
    · rfl
  · rfl

theorem append_tasks_tasks (st : SchedState) (now : Int) :
    (append_tasks st now).tasks = st.tasks := rfl

theorem mark_exited_keys (st : SchedState) (m : String) :
    (mark_exited st m).tasks.map Prod.fst = st.tasks.map Prod.fst := by
  unfold mark_exited
  dsimp only
  exact keys_updEntry _ m st.tasks

theorem step_keys {st st' : SchedState} (h : Step st st') :
    st'.tasks.map Prod.fst = st.tasks.map Prod.fst := by
  cases h with
  | cycle now1 now2 load conn =>
      unfold wake_cycle
      rw [schedule_keys, append_tasks_tasks]
  | exitNotify mirror => exact mark_exited_keys st mirror

/-! ### Preservation of queue soundness -/

theorem queueSound_delay_task {st : SchedState} (h : QueueSound st)
    (m : String) (d : Int) : QueueSound (delay_task st m d) := by
  unfold delay_task
  split
  · intro m' t' hmem
    simp only at hmem
    rcases mem_updEntry hmem with ⟨q, hq, heq⟩
    rcases h q.1 q.2 hq with ⟨task, hlk, he, hr⟩
    by_cases hqm : q.1 = m
    · rw [if_pos hqm] at heq
      have hm' : m' = q.1 := congrArg Prod.fst heq
      exact ⟨task, by rw [hm']; exact hlk, he, hr⟩
    · rw [if_neg hqm] at heq
      have hm' : m' = q.1 := congrArg Prod.fst heq
      exact ⟨task, by rw [hm']; exact hlk, he, hr⟩
  · exact h

theorem queueSound_run_task {st : SchedState} (h : QueueSound st)
    (m : String) : QueueSound (run_task st m) := by
  unfold run_task
  cases hlk : List.lookup m st.tasks with
  | none => exact h
  | some task =>
      by_cases hr : task.running
      · simp only [if_pos hr]; exact h
      · simp only [if_neg hr]
        intro m' t' hmem
        have hmem' := List.mem_filter.mp hmem
        have hne : m' ≠ m := by
          have := hmem'.2
          simpa using this
        rcases h m' t' hmem'.1 with ⟨task', hlk', he, hr'⟩
        refine ⟨task', ?_, he, hr'⟩
        rw [lookup_updEntry, if_neg hne]
        exact hlk'

theorem queueSound_mark_exited {st : SchedState} (h : QueueSound st)
    (m : String) : QueueSound (mark_exited st m) := by
  unfold mark_exited
  intro m' t' hmem
  dsimp only at hmem ⊢
  rcases h m' t' hmem with ⟨task', hlk', he, hr'⟩
  by_cases hne : m' = m
  · refine ⟨{ task' with running := false }, ?_, he, rfl⟩
    rw [lookup_updEntry, if_pos hne, hlk']
    rfl
  · refine ⟨task', ?_, he, hr'⟩
    rw [lookup_updEntry, if_neg hne]
    exact hlk'

theorem queueSound_schedule_task {st : SchedState} (h : QueueSound st)
    (load : Rat) (conn : Int) (m : String) :
    QueueSound (schedule_task st load conn m) := by
  unfold schedule_task
  cases hlk : List.lookup m st.tasks with
  | none => exact h
  | some task =>
      dsimp only
      split
      · exact queueSound_delay_task h m 1800
      · split
        · exact queueSound_delay_task h m 1800
        · split
          · exact queueSound_delay_task h m 1800
          · exact queueSound_run_task h m

theorem queueSound_schedulePass (load : Rat) (conn : Int) (timestamp : Int) :
    ∀ (mirrors : List String) (st : SchedState), QueueSound st →
      QueueSound (schedulePass load conn timestamp st mirrors) := by
  intro mirrors
  induction mirrors with
  | nil => intro st h; exact h
  | cons mirror rest ih =>
      intro st h
      simp only [schedulePass]
      cases hlk : List.lookup mirror st.queue with
      | none => exact ih st h
      | some t =>
          dsimp only
          split
          · exact h
          · split
            · exact ih _ (queueSound_schedule_task h load conn mirror)
            · exact ih st h

theorem queueSound_schedule {st : SchedState} (h : QueueSound st)
    (now : Int) (load : Rat) (conn : Int) (mirrors : List String) :
    QueueSound (schedule st now load conn mirrors) := by
  unfold schedule
  split
  · split
    · exact queueSound_schedulePass load conn (now - now % 60) mirrors st h
    · exact h
  · exact h

theorem queueSound_append_tasks {st : SchedState} (hnd : tasksNodup st)
    (h : QueueSound st) (now : Int) : QueueSound (append_tasks st now) := by
  intro m t hmem
  rcases mem_append_tasks_aux hmem with hq | ⟨_, task, hmemT, he, hr, _⟩
  · exact h m t hq
  · exact ⟨task, lookup_eq_some_of_mem hnd hmemT, he, hr⟩

theorem step_preserves {st st' : SchedState} (h : Step st st')
    (hnd : tasksNodup st) (hqs : QueueSound st) :
    tasksNodup st' ∧ QueueSound st' := by
  refine ⟨?_, ?_⟩
  · show (st'.tasks.map Prod.fst).Nodup
    rw [step_keys h]
    exact hnd
  · cases h with
    | cycle now1 now2 load conn =>
        exact queueSound_schedule
          (queueSound_append_tasks hnd hqs now1) now2 load conn _
    | exitNotify mirror => exact queueSound_mark_exited hqs mirror

theorem reachable_preserves {st st' : SchedState} (h : Reachable st st')
    (hnd : tasksNodup st) (hqs : QueueSound st) :
    tasksNodup st' ∧ QueueSound st' := by
  induction h with
  | refl => exact ⟨hnd, hqs⟩
  | tail _ hstep ih => exact step_preserves hstep ih.1 ih.2

theorem lookup_filter_ne {α : Type} (q : List (String × α)) (m k : String)
    (hk : k ≠ m) :
    List.lookup k (q.filter (fun p => p.1 ≠ m)) = List.lookup k q := by
  induction q with
  | nil => rfl
  | cons p rest ih =>
      obtain ⟨k', v'⟩ := p
      rw [List.filter_cons]
      by_cases hk' : k' = m
      · rw [if_neg (by simp [hk'])]
        have hne : (k == k') = false :=
          beq_false_of_ne (fun h => hk (h.trans hk'))
        calc List.lookup k (rest.filter (fun p => p.1 ≠ m))
            = List.lookup k rest := ih
          _ = List.lookup k ((k', v') :: rest) := by rw [List.lookup, hne]
      · rw [if_pos (by simp [hk'])]
        by_cases hkk : k = k'
        · subst hkk; simp [List.lookup]
        · have hne : (k == k') = false := beq_false_of_ne hkk
          rw [List.lookup, hne, List.lookup, hne]
          exact ih

/-! ### Concrete sample values used by witnesses and counterexamples -/

/-- An ordinary task: priority 9 (non-critical), enabled, idle, always
scheduled for time 100. -/
def task9 : Task :=
  { priority := 9, enabled := true, running := false,
    get_schedule_time := fun _ => 100 }

/-- A critical task: priority 1, enabled, idle. -/
def task1 : Task :=
  { priority := 1, enabled := true, running := false,
    get_schedule_time := fun _ => 100 }

/-- An already-running task. -/
def taskRun : Task :=
  { priority := 9, enabled := true, running := true,
    get_schedule_time := fun _ => 100 }

/-- A disabled, idle task. -/
def taskOff : Task :=
  { priority := 9, enabled := false, running := false,
    get_schedule_time := fun _ => 100 }

/-- The default general settings (no `general` config section). -/
def conf0 : GeneralConf := init_general none

/-- Default settings with the concurrency ceiling lowered to 0. -/
def confMax0 : GeneralConf := { conf0 with maxtasks := 0 }

/-! ## Claim C8 -/

/-- C8: when the configuration has no `general` section, `init_general`
proceeds with the hardcoded defaults: load ceiling 4.0, connection ceiling
1200, max-concurrency 10, log directory `/var/log/rsync`, and an empty email
list.  (The accompanying log line is I/O and outside the model.) -/
theorem C8_missing_general_defaults :
    init_general none =
      { emails := [], loadlimit := 4, httpconn := 1200,
        logdir := "/var/log/rsync", maxtasks := 10 } := rfl

/-! ## Claim C6 -/

/-- C6: deferring a task that is tracked in the Queue increases its queued
time by exactly the configured delay 1800 (hence strictly: it never
decreases), removes nothing from the Queue and leaves every other entry and
the task set unchanged; deferring an untracked task is a no-op. -/
theorem C6_delay_monotonic :
    (∀ (st : SchedState) (m : String) (t : Int),
        List.lookup m st.queue = some t →
        List.lookup m (delay_task st m 1800).queue = some (t + 1800) ∧
        t < t + 1800 ∧
        (delay_task st m 1800).queue.map Prod.fst = st.queue.map Prod.fst ∧
        (delay_task st m 1800).tasks = st.tasks ∧
        (∀ m' : String, m' ≠ m →
          List.lookup m' (delay_task st m 1800).queue =
            List.lookup m' st.queue)) ∧
    (∀ (st : SchedState) (m : String),
        List.lookup m st.queue = none → delay_task st m 1800 = st) := by
  constructor
  · intro st m t hlk
    have hsome : (List.lookup m st.queue).isSome = true := by
      rw [hlk]; rfl
    unfold delay_task
    rw [if_pos hsome]
    dsimp only
    refine ⟨?_, by omega, ?_, rfl, ?_⟩
    · rw [lookup_updEntry, if_pos rfl, hlk]
      rfl
    · exact keys_updEntry _ m st.queue
    · intro m' hm'
      rw [lookup_updEntry, if_neg hm']
  · intro st m hlk
    unfold delay_task
    rw [if_neg (by rw [hlk]; simp)]

/-- Witness for C6 at a concrete state: the queued time of `"a"` (130) grows
to 130 + 1800 and the untracked mirror `"zzz"` is untouched. -/
theorem C6_delay_monotonic_witness :
    List.lookup "a"
      (delay_task
        { general := conf0, tasks := [("a", task9)], queue := [("a", 130)],
          todo := SCHEDULE_TASK } "a" 1800).queue = some (130 + 1800) :=
  (C6_delay_monotonic.1
    { general := conf0, tasks := [("a", task9)], queue := [("a", 130)],
      todo := SCHEDULE_TASK } "a" 130 rfl).1

/-! ## Claim C4 -/

/-- C4: a candidate task with priority ≤ 4 is dispatched by the admission
decision (`schedule_task` reduces to `run_task`) for every sampled load and
connection count — in particular when they exceed their ceilings — provided
the running-task count is below the max-concurrency ceiling. -/
theorem C4_priority_bypass (st : SchedState) (load : Rat) (conn : Int)
    (m : String) (task : Task)
    (hlk : List.lookup m st.tasks = some task)
    (hp : task.priority ≤ 4)
    (hcap : count_running_tasks st < st.general.maxtasks) :
    schedule_task st load conn m = run_task st m := by
  unfold schedule_task
  rw [hlk]
  dsimp only
  rw [if_neg (fun hc => absurd hc.2 (by omega)),
      if_neg (fun hc => absurd hc.2 (by omega)),
      if_neg (not_le.mpr hcap)]

/-- Witness for C4: priority 1 and one idle task; load 100 > 4 and
connections 99999 > 1200 both exceed their ceilings, yet the task is
dispatched. -/
theorem C4_priority_bypass_witness :
    schedule_task
      { general := conf0, tasks := [("a", task1)], queue := [("a", 130)],
        todo := SCHEDULE_TASK } 100 99999 "a" =
    run_task
      { general := conf0, tasks := [("a", task1)], queue := [("a", 130)],
        todo := SCHEDULE_TASK } "a" :=
  C4_priority_bypass _ 100 99999 "a" task1 rfl (by decide) (by decide)

/-! ## Claim C5 -/

/-- C5: for a candidate task of any priority, when the running-task count
reaches the max-concurrency ceiling the admission decision defers the task
(`schedule_task` reduces to `delay_task` with the 1800 delay): the
concurrency check is never bypassed by priority. -/
theorem C5_concurrency_never_bypassed (st : SchedState) (load : Rat)
    (conn : Int) (m : String) (task : Task)
    (hlk : List.lookup m st.tasks = some task)
    (hcap : count_running_tasks st ≥ st.general.maxtasks) :
    schedule_task st load conn m = delay_task st m 1800 := by
  unfold schedule_task
  rw [hlk]
  dsimp only
  by_cases h1 : load > st.general.loadlimit ∧ task.priority > 4
  · rw [if_pos h1]
  · rw [if_neg h1]
    by_cases h2 : conn > st.general.httpconn ∧ task.priority > 4
    · rw [if_pos h2]
    · rw [if_neg h2, if_pos hcap]

/-- Witness for C5: a critical (priority 1) task with the concurrency ceiling
at 0, zero load and zero connections, is still deferred. -/
theorem C5_concurrency_never_bypassed_witness :
    schedule_task
      { general := confMax0, tasks := [("a", task1)], queue := [("a", 130)],
        todo := SCHEDULE_TASK } 0 0 "a" =
    delay_task
      { general := confMax0, tasks := [("a", task1)], queue := [("a", 130)],
        todo := SCHEDULE_TASK } "a" 1800 :=
  C5_concurrency_never_bypassed _ 0 0 "a" task1 rfl (by decide)

/-! ## Claim C2 -/

/-- A state with a stale queue entry: mirror `"a"` is queued at time 140 but
its task is already running. -/
def stStale : SchedState :=
  { general := conf0, tasks := [("a", taskRun)], queue := [("a", 140)],
    todo := SCHEDULE_TASK }

/-- C2 counterexample: dispatching the queued mirror `"a"` whose task is
already running leaves the state completely unchanged — in particular the
stale queue entry is NOT removed, contrary to the claim that the task "is
still removed from the Queue". -/
theorem C2_counterexample :
    run_task stStale "a" = stStale ∧
    (List.lookup "a" stStale.tasks).map Task.running = some true ∧
    List.lookup "a" (run_task stStale "a").queue = some 140 :=
  ⟨rfl, rfl, rfl⟩

/-- C2 amended: `run_task` checks the running flag before calling
`Task.start`: when the task is already running it returns without starting
anything and without touching the Queue (the stale entry stays); when the
task is not running it starts it (`running` becomes true) and removes the
task from the Queue, leaving every other queue entry and task unchanged. -/
theorem C2_dispatch_amended :
    (∀ (st : SchedState) (m : String) (task : Task),
        List.lookup m st.tasks = some task → task.running = true →
        run_task st m = st) ∧
    (∀ (st : SchedState) (m : String) (task : Task),
        List.lookup m st.tasks = some task → task.running = false →
        List.lookup m (run_task st m).queue = none ∧
        List.lookup m (run_task st m).tasks =
          some { task with running := true } ∧
        (∀ m' : String, m' ≠ m →
          List.lookup m' (run_task st m).queue = List.lookup m' st.queue ∧
          List.lookup m' (run_task st m).tasks = List.lookup m' st.tasks)) := by
  constructor
  · intro st m task hlk hrun
    unfold run_task
    rw [hlk]
    dsimp only
    rw [if_pos hrun]
  · intro st m task hlk hrun
    unfold run_task
    rw [hlk]
    dsimp only
    rw [if_neg (by simp [hrun])]
    dsimp only
    refine ⟨?_, ?_, ?_⟩
    · rw [lookup_eq_none_iff]
      intro hmem
      rcases List.mem_map.mp hmem with ⟨p, hp, hfst⟩
      have := (List.mem_filter.mp hp).2
      simp [hfst] at this
    · rw [lookup_updEntry, if_pos rfl, hlk]
      rfl
    · intro m' hm'
      exact ⟨lookup_filter_ne st.queue m m' hm',
        by rw [lookup_updEntry, if_neg hm']⟩

/-- Witness for C2 (amended): starting the idle queued task `"a"` removes its
queue entry. -/
theorem C2_dispatch_amended_witness :
    List.lookup "a"
      (run_task
        { general := conf0, tasks := [("a", task9)], queue := [("a", 130)],
          todo := SCHEDULE_TASK } "a").queue = none :=
  (C2_dispatch_amended.2
    { general := conf0, tasks := [("a", task9)], queue := [("a", 130)],
      todo := SCHEDULE_TASK } "a" task9 rfl rfl).1

/-! ## Claim C1 -/

/-- A state with an overdue queue entry: mirror `"a"` is queued at time 100,
enabled and idle, with default ceilings and zero load, so nothing but the
window check could stop a dispatch. -/
def stOver : SchedState :=
  { general := conf0, tasks := [("a", task9)], queue := [("a", 100)],
    todo := SCHEDULE_TASK }

/-- C1 counterexample: a SCHEDULING pass at time 125 has window
`[120, 180)`; the task queued at 100 is overdue (100 < 120).  Admission
could not defer it (load 0, connections 0, 0 running < ceiling 10), yet the
pass leaves the state untouched: the task is neither started nor removed
from the Queue — it is skipped, not "treated as due now and dispatched". -/
theorem C1_counterexample :
    schedule stOver 125 0 0 (mirrorsOf stOver.queue) = stOver ∧
    List.lookup "a" (schedule stOver 125 0 0 (mirrorsOf stOver.queue)).queue =
      some 100 ∧
    (List.lookup "a"
        (schedule stOver 125 0 0 (mirrorsOf stOver.queue)).tasks).map
      Task.running = some false :=
  ⟨rfl, rfl, rfl⟩

/-- C1 amended: a queued task whose queued time is before the window start is
NOT treated as due now: the `timestamp <= queued time` half of the window
check excludes it, so it is neither dispatched nor deferred.  A pass over
mirrors whose queued times are all overdue changes nothing at all. -/
theorem C1_overdue_skipped (load : Rat) (conn : Int) (timestamp : Int) :
    ∀ (mirrors : List String) (st : SchedState),
      (∀ m ∈ mirrors, ∀ t, List.lookup m st.queue = some t → t < timestamp) →
      schedulePass load conn timestamp st mirrors = st := by
  intro mirrors
  induction mirrors with
  | nil => intro st _; rfl
  | cons mirror rest ih =>
      intro st h
      simp only [schedulePass]
      cases hlk : List.lookup mirror st.queue with
      | none =>
          exact ih st (fun m hm t ht => h m (List.mem_cons_of_mem _ hm) t ht)
      | some t =>
          have hover : t < timestamp :=
            h mirror (List.mem_cons_self _ _) t hlk
          dsimp only
          rw [if_neg (by omega), if_neg (fun hc => absurd hc.1 (by omega))]
          exact ih st (fun m hm t' ht' => h m (List.mem_cons_of_mem _ hm) t' ht')

/-- Witness for C1 (amended): the overdue state above, window start 120. -/
theorem C1_overdue_skipped_witness :
    schedulePass 0 0 120 stOver ["a"] = stOver :=
  C1_overdue_skipped 0 0 120 ["a"] stOver
    (by
      intro m hm t ht
      have hm' : m = "a" := by simpa using hm
      subst hm'
      have ht' : (100 : Int) = t := by
        simpa [stOver, List.lookup] using ht
      omega)

/-! ## Claim C3 -/

/-- C3: within one SCHEDULING pass the queued mirrors are considered in
ascending order of queued time (`sortQueue` sorts the queue by time, and
`sleep` hands `schedule` exactly that order via `mirrorsOf`), and the pass
stops at the first mirror whose queued time is at or past the window end:
whatever mirrors follow it, the pass returns the state unchanged without
inspecting them. -/
theorem C3_order_and_halt :
    (∀ queue : List (String × Int),
        List.Sorted (fun a b : Int => a ≤ b) ((sortQueue queue).map Prod.snd)) ∧
    (∀ (load : Rat) (conn : Int) (timestamp : Int) (st : SchedState)
        (m : String) (rest : List String) (t : Int),
        List.lookup m st.queue = some t → t ≥ timestamp + 60 →
        schedulePass load conn timestamp st (m :: rest) = st) := by
  constructor
  · intro queue
    have hs : List.Sorted timeLE (sortQueue queue) :=
      List.sorted_insertionSort timeLE queue
    exact List.Pairwise.map Prod.snd (fun a b hab => hab) hs
  · intro load conn timestamp st m rest t hlk ht
    simp only [schedulePass]
    rw [hlk]
    dsimp only
    rw [if_pos ht]

/-- A state with mirror `"a"` queued at time 200, past the window end 180 of
a pass started at window start 120. -/
def stOver2 : SchedState :=
  { general := conf0, tasks := [("a", task9)], queue := [("a", 200)],
    todo := SCHEDULE_TASK }

/-- Witness for C3: mirror `"a"` queued at 200 with window `[120, 180)`; the
pass halts at once, and the fictitious trailing mirror `"zzz"` (not even
queued) is never inspected. -/
theorem C3_order_and_halt_witness :
    schedulePass 0 0 120 stOver2 ["a", "zzz"] = stOver2 :=
  C3_order_and_halt.2 0 0 120 stOver2 "a" ["zzz"] 200 rfl (by decide)

/-! ## Claim C10 -/

/-- The scheduler state right after `__init__` with the single task `"a"`
(enabled, idle, schedule time constantly 100) and no `general` section. -/
def stInit : SchedState := initState none [("a", task9)]

/-- The state after one wake cycle that appends `"a"` at clock 50 (queued
time 100) and then runs `schedule` at clock 161: the window is `[120, 180)`,
the queued time 100 is overdue, so the entry survives the pass. -/
def stStuck : SchedState := wake_cycle stInit 50 161 0 0

/-- C10: the sleep duration is exactly the earliest queued time minus the
current time, with no lower bound: in the reachable state `stStuck` the
earliest queued time 100 lies in the past of the clock 161, and the duration
handed to the blocking sleep primitive is 100 - 161 < 0. -/
theorem C10_negative_sleep :
    Reachable stInit stStuck ∧
    List.lookup "a" (append_tasks stStuck 161).queue = some 100 ∧
    sleep_duration stStuck 161 161 = 100 - 161 ∧
    sleep_duration stStuck 161 161 < 0 :=
  ⟨Relation.ReflTransGen.single (Step.cycle stInit 50 161 0 0),
   rfl, by decide, by decide⟩

/-! ## Claim C7 -/

/-- C7 counterexample: at the instant right after initialization (a reachable
instant: zero steps from the initial state) the task `"a"` is enabled and not
running, yet the Queue is empty — `QueueComplete` fails, so "a task is in the
Queue if and only if it is enabled and not running" does not hold at every
instant. -/
theorem C7_counterexample :
    Reachable stInit stInit ∧
    List.lookup "a" stInit.tasks = some task9 ∧
    task9.enabled = true ∧ task9.running = false ∧
    ¬ QueueComplete stInit := by
  refine ⟨Relation.ReflTransGen.refl, rfl, rfl, rfl, ?_⟩
  intro h
  rcases h "a" task9 rfl rfl rfl with ⟨t, ht⟩
  simp [stInit, initState] at ht

/-- C7 amended: the "only if" half of the invariant does hold at every
reachable instant — every queued task is enabled and not running, so a
running task is never in the Queue — and the queue-population step adds only
tasks that are enabled, not running and not already queued; moreover the full
"if and only if" holds right after `append_tasks`, but not at every instant
(see the counterexample). -/
theorem C7_queue_invariant_amended :
    (∀ st0 st : SchedState, st0.queue = [] → tasksNodup st0 →
        Reachable st0 st → QueueSound st) ∧
    (∀ (st : SchedState) (now : Int) (m : String) (t : Int),
        (m, t) ∈ (append_tasks st now).queue →
        (m, t) ∈ st.queue ∨
          (List.lookup m st.queue = none ∧ ∃ task, (m, task) ∈ st.tasks ∧
            task.enabled = true ∧ task.running = false ∧
            t = task.get_schedule_time now)) ∧
    (∀ (st : SchedState) (now : Int), QueueComplete (append_tasks st now)) := by
  refine ⟨?_, ?_, ?_⟩
  · intro st0 st hq hnd hreach
    refine (reachable_preserves hreach hnd ?_).2
    intro m t hmem
    rw [hq] at hmem
    simp at hmem
  · intro st now m t hmem
    exact mem_append_tasks_aux hmem
  · intro st now m task hlk he hr
    exact append_tasks_aux_complete hlk he hr

/-- Witness for C7 (amended): after one concrete wake cycle from the initial
state every queued task is enabled and not running. -/
theorem C7_queue_invariant_witness :
    QueueSound (wake_cycle stInit 50 161 0 0) :=
  C7_queue_invariant_amended.1 stInit (wake_cycle stInit 50 161 0 0) rfl
    (by show (List.map Prod.fst stInit.tasks).Nodup; decide)
    (Relation.ReflTransGen.single (Step.cycle stInit 50 161 0 0))

/-! ## Claim C9 -/

/-- A state whose single task is disabled and idle: the queue-membership
invariant holds (the task is rightly absent from the empty queue), yet
`count_running_tasks` reports 1 while no task is running. -/
def stDis : SchedState :=
  { general := conf0, tasks := [("a", taskOff)], queue := [],
    todo := SCHEDULE_TASK }

/-- C9 counterexample: `stDis` satisfies the queue-membership invariant in
both directions, but `len(tasks) - len(queue)` is 1 whereas the number of
tasks with `running = true` is 0: the proxy also counts disabled idle
tasks. -/
theorem C9_counterexample :
    QueueSound stDis ∧ QueueComplete stDis ∧
    count_running_tasks stDis = 1 ∧ numRunning stDis = 0 := by
  refine ⟨?_, ?_, rfl, rfl⟩
  · intro m t hmem
    simp [stDis] at hmem
  · intro m task hlk he _
    have hmem := mem_of_lookup_eq_some hlk
    simp [stDis] at hmem
    obtain ⟨_, htask⟩ := hmem
    rw [htask] at he
    simp [taskOff] at he

/-- Splitting the task list by the running flag when every task is enabled. -/
theorem length_partition_running :
    ∀ l : List (String × Task), (∀ p ∈ l, p.2.enabled = true) →
      l.length = (l.filter (fun p => p.2.running)).length +
        (l.filter (fun p => p.2.enabled && !p.2.running)).length := by
  intro l
  induction l with
  | nil => intro _; rfl
  | cons p rest ih =>
      intro h
      have hp : p.2.enabled = true := h p (List.mem_cons_self _ _)
      have hrest := ih (fun q hq => h q (List.mem_cons_of_mem _ hq))
      rw [List.filter_cons, List.filter_cons]
      cases hr : p.2.running
      · rw [if_neg (by simp [hr]), if_pos (by simp [hp, hr])]
        simp only [List.length_cons]
        omega
      · rw [if_pos (by simp [hr]), if_neg (by simp [hr])]
        simp only [List.length_cons]
        omega

/-- C9 amended: `count_running_tasks` is `len(tasks) - len(queue)`
(definitionally), and under the queue-membership invariant this equals the
number of tasks whose running flag is true PROVIDED every task is enabled;
a disabled idle task satisfies the invariant while inflating the count (see
the counterexample). -/
theorem C9_running_count_amended (st : SchedState)
    (hndT : tasksNodup st) (hndQ : (st.queue.map Prod.fst).Nodup)
    (hsound : QueueSound st) (hcomplete : QueueComplete st)
    (hall : ∀ p ∈ st.tasks, p.2.enabled = true) :
    count_running_tasks st = numRunning st := by
  classical
  set F := st.tasks.filter (fun p => p.2.enabled && !p.2.running) with hF
  have hmem : ∀ k : String,
      k ∈ st.queue.map Prod.fst ↔ k ∈ F.map Prod.fst := by
    intro k
    constructor
    · intro hk
      rcases List.mem_map.mp hk with ⟨p, hp, rfl⟩
      obtain ⟨m, t⟩ := p
      rcases hsound m t hp with ⟨task, hlk, he, hrn⟩
      refine List.mem_map.mpr ⟨(m, task), ?_, rfl⟩
      exact List.mem_filter.mpr
        ⟨mem_of_lookup_eq_some hlk, by simp [he, hrn]⟩
    · intro hk
      rcases List.mem_map.mp hk with ⟨q, hq, rfl⟩
      obtain ⟨m, task⟩ := q
      have hqt := List.mem_filter.mp hq
      have hpred : task.enabled = true ∧ task.running = false := by
        have := hqt.2
        simpa using this
      have hlk : List.lookup m st.tasks = some task :=
        lookup_eq_some_of_mem hndT hqt.1
      rcases hcomplete m task hlk hpred.1 hpred.2 with ⟨t, ht⟩
      exact List.mem_map.mpr ⟨(m, t), ht, rfl⟩
  have hndF : (F.map Prod.fst).Nodup :=
    hndT.sublist ((List.filter_sublist st.tasks).map Prod.fst)
  have hfin : (st.queue.map Prod.fst).toFinset = (F.map Prod.fst).toFinset := by
    apply Finset.ext
    intro k
    simp only [List.mem_toFinset]
    exact hmem k
  have hlen : st.queue.length = F.length := by
    have hc := congrArg Finset.card hfin
    rw [List.toFinset_card_of_nodup hndQ, List.toFinset_card_of_nodup hndF]
      at hc
    simpa using hc
  have htot := length_partition_running st.tasks hall
  rw [← hF] at htot
  unfold count_running_tasks numRunning
  rw [hlen, htot]
  omega

/-- A two-task state satisfying all hypotheses of the amended C9: `"a"`
enabled and idle (queued at 130), `"b"` enabled and running (not queued). -/
def stW9 : SchedState :=
  { general := conf0, tasks := [("a", task9), ("b", taskRun)],
    queue := [("a", 130)], todo := SCHEDULE_TASK }

/-- Witness for C9 (amended) at the concrete state `stW9`: 2 tasks - 1
queued = 1 running task. -/
theorem C9_running_count_witness :
    count_running_tasks stW9 = numRunning stW9 :=
  C9_running_count_amended stW9
    (by show (List.map Prod.fst stW9.tasks).Nodup; decide) (by decide)
    (by
      intro m t hmem
      simp [stW9] at hmem
      obtain ⟨hm, ht⟩ := hmem
      subst hm
      exact ⟨task9, rfl, rfl, rfl⟩)
    (by
      intro m task hlk he hr
      have hmem := mem_of_lookup_eq_some hlk
      simp [stW9] at hmem
      rcases hmem with ⟨hm, htask⟩ | ⟨hm, htask⟩
      · subst hm
        exact ⟨130, by simp [stW9]⟩
      · rw [htask] at hr
        simp [taskRun] at hr)
    (by
      intro p hp
      simp [stW9] at hp
      rcases hp with rfl | rfl <;> rfl)

end Mirror
